import Mathlib

/-!
Verification of the MySQL result-set row decoder
(`sqlx-core/src/mysql/protocol/row.rs`).

Bytes are modelled as natural numbers (each entry intended `< 256`), and
the one machine-integer addition that can overflow for such inputs — the
`usize` sum `len_size + len` in the `0xFE` arm of `get_lenenc` — carries
an explicit `% 2 ^ 64`.  Fallible Rust control
flow is modelled with `Except Failure`: a Rust panic (out-of-bounds
slice/index, or the `unimplemented!` macro) is a `Failure` marked as a
panic, while an error value returned through `crate::Result` is a
`Failure` marked as a returned error.
-/

/-- Outcome of a failing decode step.  The first two constructors model
Rust panics (crashes); the last two model error values returned to the
caller through `crate::Result` / `io::Result`. -/
inductive Failure where
  | panicOOB : Failure
  | panicUnimplemented : Nat → Failure
  | errUnexpectedEof : Failure
  | errProtocolViolation : Nat → Failure
deriving DecidableEq

/-- `true` for the `Failure`s that model a Rust panic (a crash), `false`
for those that model an error value returned to the caller. -/
def Failure.isPanic : Failure → Bool
  | .panicOOB => true
  | .panicUnimplemented _ => true
  | .errUnexpectedEof => false
  | .errProtocolViolation _ => false

/-- Modelled from the spec: the column wire-type enumeration (`TypeId`)
is declared by column-definition decoding, outside the source file under
verification.  Its constructors mirror exactly the named constants that
`Row::decode` matches on, with a catch-all `other id` for every wire-type
outside the resolver table (the source's `id =>` match arm). -/
inductive TypeId where
  | TINY_INT | SMALL_INT | INT | BIG_INT
  | DATE | TIME | TIMESTAMP | DATETIME
  | TINY_BLOB | MEDIUM_BLOB | LONG_BLOB
  | CHAR | TEXT | VAR_CHAR
  | other (id : Nat)
deriving DecidableEq

/-- Little-endian read of `n` bytes (`byteorder`'s `read_u16`/`read_u24`/
`read_u64` on the slice, which panic — here `none` — when fewer than `n`
bytes remain). -/
def readLE : Nat → List Nat → Option Nat
  | 0, _ => some 0
  | _ + 1, [] => none
  | n + 1, b :: rest => (readLE n rest).map fun hi => b + 256 * hi

/-- `get_lenenc` from the source: total byte span of a length-encoded
field, keyed on the first byte.  `none` models the panic that the Rust
code performs when the buffer is empty (`buf[0]`) or too short for the
declared-width little-endian length that follows the marker byte.
Every arm's `len_size + len` is a `usize` (64-bit) addition: for byte
inputs it can exceed `usize` only in the `0xFE` arm (the other reads are
bounded by `2 ^ 24`), so that arm carries the explicit wrap-around
`% 2 ^ 64` of release builds — under debug overflow checks the same
inputs panic instead, and either way the unwrapped sum `9 + len` is not
returned once it exceeds `usize::MAX`. -/
def get_lenenc : List Nat → Option Nat
  | [] => none
  | b :: rest =>
    if b = 0xFB then some 1
    else if b = 0xFC then (readLE 2 rest).map fun len => 3 + len
    else if b = 0xFD then (readLE 3 rest).map fun len => 4 + len
    else if b = 0xFE then (readLE 8 rest).map fun len => (9 + len) % 2 ^ 64
    else some (1 + b)

/-- The `Row` produced by `Row::decode`: an owned byte buffer and, per
column, either a present half-open range `(start, end)` into the buffer
or `none` for SQL NULL. -/
structure Row where
  buffer : List Nat
  values : List (Option (Nat × Nat))
  binary : Bool
deriving DecidableEq

/-- `Row::len`: the number of column entries. -/
def Row.len (r : Row) : Nat := r.values.length

/-- `Row::get`: `self.values[index]` panics when `index` is out of
bounds; a `none` entry denotes SQL NULL; a present range is sliced out of
the buffer, panicking (Rust slice semantics) when the range does not lie
within the buffer. -/
def Row.get (r : Row) (index : Nat) : Except Failure (Option (List Nat)) :=
  match r.values.get? index with
  | none => .error .panicOOB
  | some none => .ok none
  | some (some (s, e)) =>
    if s ≤ e ∧ e ≤ r.buffer.length then
      .ok (some ((r.buffer.drop s).take (e - s)))
    else .error .panicOOB

/-- The per-type size match of the binary branch of `Row::decode`
(lines 104–125 of the source), factored out verbatim: fixed widths for
the integer and date types, `1 + buffer[index]` for the time-family
types (panicking when `index` is out of bounds), `get_lenenc` at the
current offset for the string/blob family, and the `unimplemented!`
panic for any other wire-type id. -/
def fieldSize (t : TypeId) (buffer : List Nat) (index : Nat) : Except Failure Nat :=
  match t with
  | .TINY_INT => .ok 1
  | .SMALL_INT => .ok 2
  | .INT => .ok 4
  | .BIG_INT => .ok 8
  | .DATE => .ok 5
  | .TIME | .TIMESTAMP | .DATETIME =>
    match buffer.get? index with
    | some b => .ok (1 + b)
    | none => .error .panicOOB
  | .TINY_BLOB | .MEDIUM_BLOB | .LONG_BLOB | .CHAR | .TEXT | .VAR_CHAR =>
    match get_lenenc (buffer.drop index) with
    | some n => .ok n
    | none => .error .panicOOB
  | .other id => .error (.panicUnimplemented id)

/-- The text-mode column loop of `Row::decode`.  Faithful to the source:
on each iteration the size is computed by `get_lenenc(&buf[index..])`
where `buf` is the slice that has ALREADY been advanced by the previous
sizes (the loop both advances the slice with `buf.advance(size)` and
adds `size` to `index`), and `buf.advance(size)` panics (Rust slice
semantics, modelled from the spec's out-of-scope cursor primitive) when
`size` exceeds the remaining length. -/
def decodeTextLoop : List Nat → Nat → Nat → List (Option (Nat × Nat)) →
    Except Failure (List (Option (Nat × Nat)))
  | _, _, 0, acc => .ok acc.reverse
  | buf, index, n + 1, acc =>
    match get_lenenc (buf.drop index) with
    | none => .error .panicOOB
    | some size =>
      if size ≤ buf.length then
        decodeTextLoop (buf.drop size) (index + size) n (some (index, index + size) :: acc)
      else .error .panicOOB

/-- The binary-mode column loop of `Row::decode`: per column, test bit
`columnIdx + 2` of the null bitmap (`nullBitmap[idx / 8] & (1 << (idx % 8))`,
panicking when the byte index is out of bounds), record `none` for a set
bit, otherwise resolve the size with `fieldSize` and record the present
range, advancing the offset. -/
def decodeBinLoop (buffer nullBitmap : List Nat) :
    List TypeId → Nat → Nat → List (Option (Nat × Nat)) →
    Except Failure (List (Option (Nat × Nat)))
  | [], _, _, acc => .ok acc.reverse
  | t :: ts, columnIdx, index, acc =>
    match nullBitmap.get? ((columnIdx + 2) / 8) with
    | none => .error .panicOOB
    | some byte =>
      if byte &&& (1 <<< ((columnIdx + 2) % 8)) ≠ 0 then
        decodeBinLoop buffer nullBitmap ts (columnIdx + 1) index (none :: acc)
      else
        match fieldSize t buffer index with
        | .error e => .error e
        | .ok size =>
          decodeBinLoop buffer nullBitmap ts (columnIdx + 1) (index + size)
            (some (index, index + size) :: acc)

/-- `Row::decode`.  Text mode copies the whole payload into the owned
buffer and runs the text loop.  Binary mode reads the header byte
(`Buf::get_u8`, modelled from the spec: it returns an io error on an
empty buffer), rejects a non-zero header with the returned
`protocol_err!` error, takes the remaining bytes as the null bitmap,
advances past `(columns.len() + 9) / 8` bitmap bytes (panicking when
fewer remain), and runs the binary loop over the bytes after the
bitmap. -/
def Row.decode (buf : List Nat) (columns : List TypeId) (binary : Bool) :
    Except Failure Row :=
  if !binary then
    match decodeTextLoop buf 0 columns.length [] with
    | .error e => .error e
    | .ok values => .ok { buffer := buf, values := values, binary := binary }
  else
    match buf with
    | [] => .error .errUnexpectedEof
    | header :: rest =>
      if header ≠ 0 then .error (.errProtocolViolation header)
      else
        let nullLen := (columns.length + 9) / 8
        if nullLen ≤ rest.length then
          match decodeBinLoop (rest.drop nullLen) rest columns 0 0 [] with
          | .error e => .error e
          | .ok values =>
            .ok { buffer := rest.drop nullLen, values := values, binary := binary }
        else .error .panicOOB

/-- C1: the claim says `Row::decode` fails with a Truncated/BoundsError
result on an input too short for its declared encoding, detected before
any slicing, and never panics.  The code instead panics: on the text row
`[0xFC]` — a length-encoded field declaring a 2-byte length whose bytes
are missing — `get_lenenc` reads past the slice end and the decode
outcome is a panic, not a returned error. -/
theorem decode_truncated_lenenc_panics :
    Row.decode [0xFC] [TypeId.VAR_CHAR] false = .error .panicOOB ∧
    Failure.isPanic .panicOOB = true := by
  constructor <;> rfl

/-- C2: the claim says a non-null column whose wire-type is outside the
resolver table makes `Row::decode` fail with a returned UnsupportedType
error, not a crash.  The code instead hits the `unimplemented!` arm and
panics: decoding a binary row with one column of wire-type id 246
(DECIMAL, absent from the table) produces a panic outcome. -/
theorem decode_unknown_type_panics :
    Row.decode [0, 0] [TypeId.other 246] true = .error (.panicUnimplemented 246) ∧
    Failure.isPanic (.panicUnimplemented 246) = true := by
  constructor <;> rfl

/-- C3 (counterexample): the claim asserts the `0xFE` arm returns the
total span `9 + L` for every 8-byte little-endian `L`.  On the 9-byte
input `[0xFE, 0xFF × 8]` (so `L = 2 ^ 64 - 1`) the source's `usize`
addition `len_size + len` overflows: the decoder yields 8 (the wrapped
sum), not `9 + L`. -/
theorem get_lenenc_fe_overflow :
    get_lenenc [0xFE, 255, 255, 255, 255, 255, 255, 255, 255] = some 8 ∧
    get_lenenc [0xFE, 255, 255, 255, 255, 255, 255, 255, 255] ≠
      some (9 + (2 ^ 64 - 1)) := by
  constructor
  · rfl
  · decide

/-- C3 (amended): the length-encoded integer decoder returns the total
field span (marker byte plus payload): 1 for `0xFB`; `1 + b` for a
literal byte `b < 0xFB`; `3 + L` for `0xFC` with 2-byte little-endian
`L`; `4 + L` for `0xFD` with 3-byte little-endian `L`; and `9 + L` for
`0xFE` with 8-byte little-endian `L` provided the total `9 + L` fits in
`usize` — whenever the declared length bytes are present.  (For larger
`L` the `usize` addition overflows; see the counterexample.) -/
theorem get_lenenc_spec_cases_amended (b l0 l1 l2 l3 l4 l5 l6 l7 : Nat)
    (rest : List Nat) (hb : b < 0xFB)
    (hfit : 9 + (l0 + 256 * (l1 + 256 * (l2 + 256 * (l3 + 256 * (l4 + 256 *
      (l5 + 256 * (l6 + 256 * l7))))))) < 2 ^ 64) :
    get_lenenc (0xFB :: rest) = some 1 ∧
    get_lenenc (b :: rest) = some (1 + b) ∧
    get_lenenc (0xFC :: l0 :: l1 :: rest) = some (3 + (l0 + 256 * l1)) ∧
    get_lenenc (0xFD :: l0 :: l1 :: l2 :: rest) =
      some (4 + (l0 + 256 * (l1 + 256 * l2))) ∧
    get_lenenc (0xFE :: l0 :: l1 :: l2 :: l3 :: l4 :: l5 :: l6 :: l7 :: rest) =
      some (9 + (l0 + 256 * (l1 + 256 * (l2 + 256 * (l3 + 256 * (l4 + 256 *
        (l5 + 256 * (l6 + 256 * l7)))))))) := by
  have h1 : b ≠ 0xFB := by omega
  have h2 : b ≠ 0xFC := by omega
  have h3 : b ≠ 0xFD := by omega
  have h4 : b ≠ 0xFE := by omega
  refine ⟨rfl, ?_, ?_, ?_, ?_⟩
  · simp [get_lenenc, h1, h2, h3, h4]
  · simp [get_lenenc, readLE]
  · simp [get_lenenc, readLE]
  · have hm := Nat.mod_eq_of_lt hfit
    simp [get_lenenc, readLE, hm]
    norm_num at hfit
    exact hfit

/-- Witness for the amended C3 at `b = 5` and length bytes
`1, 2, 3, 0, …, 0`, whose declared total fits in `usize`. -/
theorem get_lenenc_spec_cases_amended_witness :
    5 < 0xFB ∧
    9 + (1 + 256 * (2 + 256 * (3 + 256 * (0 + 256 * (0 + 256 *
      (0 + 256 * (0 + 256 * 0))))))) < 2 ^ 64 ∧
    (get_lenenc (0xFB :: [9]) = some 1 ∧
     get_lenenc (5 :: [9]) = some (1 + 5) ∧
     get_lenenc (0xFC :: 1 :: 2 :: [9]) = some (3 + (1 + 256 * 2)) ∧
     get_lenenc (0xFD :: 1 :: 2 :: 3 :: [9]) = some (4 + (1 + 256 * (2 + 256 * 3))) ∧
     get_lenenc (0xFE :: 1 :: 2 :: 3 :: 0 :: 0 :: 0 :: 0 :: 0 :: [9]) =
       some (9 + (1 + 256 * (2 + 256 * (3 + 256 * (0 + 256 * (0 + 256 *
         (0 + 256 * (0 + 256 * 0))))))))) :=
  ⟨by decide, by norm_num,
    get_lenenc_spec_cases_amended 5 1 2 3 0 0 0 0 0 [9] (by decide) (by norm_num)⟩

/-- C5: the field-size resolver of the binary branch returns 1 for
tiny-int, 2 for small-int, 4 for int, 8 for big-int, 5 for date,
`1 + N` for time/timestamp/datetime where `N` is the byte at the
current offset, and the length-encoded total span at the current offset
for the string/blob family. -/
theorem fieldSize_spec (buffer : List Nat) (index b n : Nat)
    (hb : buffer.get? index = some b)
    (hn : get_lenenc (buffer.drop index) = some n) :
    fieldSize TypeId.TINY_INT buffer index = .ok 1 ∧
    fieldSize TypeId.SMALL_INT buffer index = .ok 2 ∧
    fieldSize TypeId.INT buffer index = .ok 4 ∧
    fieldSize TypeId.BIG_INT buffer index = .ok 8 ∧
    fieldSize TypeId.DATE buffer index = .ok 5 ∧
    fieldSize TypeId.TIME buffer index = .ok (1 + b) ∧
    fieldSize TypeId.TIMESTAMP buffer index = .ok (1 + b) ∧
    fieldSize TypeId.DATETIME buffer index = .ok (1 + b) ∧
    fieldSize TypeId.TINY_BLOB buffer index = .ok n ∧
    fieldSize TypeId.MEDIUM_BLOB buffer index = .ok n ∧
    fieldSize TypeId.LONG_BLOB buffer index = .ok n ∧
    fieldSize TypeId.CHAR buffer index = .ok n ∧
    fieldSize TypeId.TEXT buffer index = .ok n ∧
    fieldSize TypeId.VAR_CHAR buffer index = .ok n := by
  simp only [List.get?_eq_getElem?] at hb
  refine ⟨rfl, rfl, rfl, rfl, rfl, ?_, ?_, ?_, ?_, ?_, ?_, ?_, ?_, ?_⟩ <;>
    simp [fieldSize, hb, hn]

/-- Witness for C5 on the one-byte buffer `[3]` at offset 0, where the
time-family sub-length byte is 3 and the length-encoded span is 4. -/
theorem fieldSize_spec_witness :
    List.get? [3] 0 = some 3 ∧ get_lenenc (List.drop 0 [3]) = some 4 ∧
    (fieldSize TypeId.TIME [3] 0 = .ok (1 + 3) ∧
     fieldSize TypeId.VAR_CHAR [3] 0 = .ok 4) :=
  ⟨rfl, rfl,
    (fieldSize_spec [3] 0 3 4 rfl rfl).2.2.2.2.2.1,
    (fieldSize_spec [3] 0 3 4 rfl rfl).2.2.2.2.2.2.2.2.2.2.2.2.2⟩

/-- C6: a binary-mode input whose header byte is non-zero makes
`Row::decode` return the `ProtocolViolation` error (a returned error,
not a panic), and the outcome is independent of every payload byte after
the header. -/
theorem decode_nonzero_header (header : Nat) (rest rest2 : List Nat)
    (columns : List TypeId) (h : header ≠ 0) :
    Row.decode (header :: rest) columns true =
      .error (.errProtocolViolation header) ∧
    Failure.isPanic (.errProtocolViolation header) = false ∧
    Row.decode (header :: rest) columns true =
      Row.decode (header :: rest2) columns true := by
  refine ⟨?_, rfl, ?_⟩ <;> simp [Row.decode, h]

/-- Witness for C6 with header byte `0x05`. -/
theorem decode_nonzero_header_witness :
    (5 : Nat) ≠ 0 ∧
    (Row.decode (5 :: [1, 2]) [] true = .error (.errProtocolViolation 5) ∧
     Failure.isPanic (.errProtocolViolation 5) = false ∧
     Row.decode (5 :: [1, 2]) [] true = Row.decode (5 :: [7]) [] true) :=
  ⟨by decide, decode_nonzero_header 5 [1, 2] [7] [] (by decide)⟩

/-- C7: the claim says every `Row` produced by `Row::decode` has all its
present ranges within the buffer, so `Row::get` always yields a valid
slice.  The code instead returns `Ok` on the truncated binary row
`[0x00, 0x00]` with one TINY_INT column: the produced row has the
present range `(0, 1)` while its buffer is empty, and `Row::get 0`
panics when slicing. -/
theorem decode_range_oob_bug :
    Row.decode [0, 0] [TypeId.TINY_INT] true =
      .ok { buffer := [], values := [some (0, 1)], binary := true } ∧
    (1 : Nat) > List.length ([] : List Nat) ∧
    Row.get { buffer := [], values := [some (0, 1)], binary := true } 0 =
      .error .panicOOB := by
  refine ⟨rfl, by decide, rfl⟩

/-- C9: the claim says the text-mode loop computes every column's size
with the length-encoded decoder at the current offset.  The code
advances both the slice and the index, so after the first column the
size is read at twice the current offset: on
`[1, 7, 7, 7, 0, 7, 7]` with two columns, the length-encoded span at
the current offset 2 is 8 (so the claim requires the range `(2, 10)`),
but decode records the range `(2, 3)`, the size having been read at
offset 4. -/
theorem decode_text_double_advance_bug :
    Row.decode [1, 7, 7, 7, 0, 7, 7] [TypeId.VAR_CHAR, TypeId.VAR_CHAR] false =
      .ok { buffer := [1, 7, 7, 7, 0, 7, 7],
            values := [some (0, 2), some (2, 3)], binary := false } ∧
    get_lenenc (List.drop 2 [1, 7, 7, 7, 0, 7, 7]) = some 8 := by
  constructor <;> rfl

/-- C10: a first byte of `0xFF` falls into the literal-length arm of
`get_lenenc`, which returns the total span `1 + 255 = 256` with no
error and no distinct case, regardless of the rest of the buffer. -/
theorem get_lenenc_ff_literal (rest : List Nat) :
    get_lenenc (0xFF :: rest) = some 256 := by
  simp [get_lenenc]

/-- Loop invariant for the binary-mode column loop: on success, the
output extends the accumulator with one entry per remaining column, and
an entry is `none` exactly when the corresponding shifted bit of the
null bitmap is set. -/
theorem decodeBinLoop_spec (buffer nullBitmap : List Nat) :
    ∀ (ts : List TypeId) (colIdx index : Nat) (acc out : List (Option (Nat × Nat))),
      decodeBinLoop buffer nullBitmap ts colIdx index acc = .ok out →
      ∃ tail, out = acc.reverse ++ tail ∧ tail.length = ts.length ∧
        ∀ j, j < ts.length →
          (tail.get? j = some none ↔
            ((nullBitmap.get? ((colIdx + j + 2) / 8)).getD 0) &&&
              (1 <<< ((colIdx + j + 2) % 8)) ≠ 0) := by
  intro ts
  induction ts with
  | nil =>
    intro colIdx index acc out h
    simp only [decodeBinLoop, Except.ok.injEq] at h
    exact ⟨[], by simp [← h], rfl, by intro j hj; simp at hj⟩
  | cons t ts ih =>
    intro colIdx index acc out h
    simp only [decodeBinLoop] at h
    split at h
    · exact absurd h (by simp)
    · rename_i byte hbyte
      split at h
      · rename_i hbit
        obtain ⟨tail, hout, hlen, hbits⟩ := ih (colIdx + 1) index (none :: acc) out h
        refine ⟨none :: tail, by simpa using hout, by simp [hlen], ?_⟩
        intro j hj
        cases j with
        | zero =>
          simp only [Nat.add_zero, hbyte]
          simpa using hbit
        | succ j =>
          have e : colIdx + (j + 1) + 2 = colIdx + 1 + j + 2 := by omega
          rw [e]
          have hj2 : j < ts.length := by simp at hj; omega
          simpa using hbits j hj2
      · rename_i hbit
        split at h
        · exact absurd h (by simp)
        · rename_i size hfs
          obtain ⟨tail, hout, hlen, hbits⟩ :=
            ih (colIdx + 1) (index + size) (some (index, index + size) :: acc) out h
          refine ⟨some (index, index + size) :: tail, by simpa using hout,
            by simp [hlen], ?_⟩
          intro j hj
          cases j with
          | zero =>
            simp only [Nat.add_zero, hbyte]
            simpa using hbit
          | succ j =>
            have e : colIdx + (j + 1) + 2 = colIdx + 1 + j + 2 := by omega
            rw [e]
            have hj2 : j < ts.length := by simp at hj; omega
            simpa using hbits j hj2

/-- Loop invariant for the text-mode column loop: on success, the output
has one entry per column beyond the accumulator. -/
theorem decodeTextLoop_length :
    ∀ (n : Nat) (buf : List Nat) (index : Nat) (acc out : List (Option (Nat × Nat))),
      decodeTextLoop buf index n acc = .ok out → out.length = acc.length + n := by
  intro n
  induction n with
  | zero =>
    intro buf index acc out h
    simp only [decodeTextLoop, Except.ok.injEq] at h
    simp [← h]
  | succ n ih =>
    intro buf index acc out h
    simp only [decodeTextLoop] at h
    split at h
    · exact absurd h (by simp)
    · rename_i size hl
      split at h
      · have := ih (buf.drop size) (index + size) (some (index, index + size) :: acc) out h
        simp at this
        omega
      · exact absurd h (by simp)

/-- C4: in binary mode a successful `Row::decode` consumes, right after
the 1-byte header, a null bitmap of exactly `(columns.len() + 9) / 8`
bytes (the remaining bytes become the row buffer), and column `i` is
recorded as NULL (absent) iff bit `i + 2` of the bitmap is set, located
at byte `(i + 2) / 8` under mask `1 <<< ((i + 2) % 8)`. -/
theorem decode_null_bitmap_spec (buf : List Nat) (columns : List TypeId) (row : Row)
    (i : Nat) (h : Row.decode buf columns true = .ok row) (hi : i < columns.length) :
    row.buffer = buf.drop (1 + (columns.length + 9) / 8) ∧
    (row.values.get? i = some none ↔
      (((buf.drop 1).get? ((i + 2) / 8)).getD 0) &&& (1 <<< ((i + 2) % 8)) ≠ 0) := by
  cases buf with
  | nil => simp [Row.decode] at h
  | cons header rest =>
    rw [show (1 + (columns.length + 9) / 8) = ((columns.length + 9) / 8) + 1 by omega]
    simp only [Row.decode, Bool.not_true, Bool.false_eq_true, if_false] at h
    split at h
    · exact absurd h (by simp)
    · rename_i hh
      split at h
      · split at h
        · exact absurd h (by simp)
        · rename_i values hloop
          simp only [Except.ok.injEq] at h
          subst h
          obtain ⟨tail, hout, hlen, hbits⟩ :=
            decodeBinLoop_spec _ _ columns 0 0 [] values hloop
          simp only [List.reverse_nil, List.nil_append] at hout
          subst hout
          refine ⟨by simp, ?_⟩
          have e0 : (0 : Nat) + i + 2 = i + 2 := by omega
          have hb := hbits i hi
          rw [e0] at hb
          simpa using hb
      · exact absurd h (by simp)

/-- Witness for C4: the binary row `[0x00, 0x04, 0x09]` with one
TINY_INT column has bitmap byte `0x04`, whose bit 2 marks column 0 as
NULL; the buffer is the single byte after the 1-byte bitmap. -/
theorem decode_null_bitmap_spec_witness :
    Row.decode [0, 4, 9] [TypeId.TINY_INT] true =
      .ok { buffer := [9], values := [none], binary := true } ∧ 0 < 1 ∧
    (({ buffer := [9], values := [none], binary := true } : Row).buffer =
      List.drop (1 + (1 + 9) / 8) [0, 4, 9] ∧
     (({ buffer := [9], values := [none], binary := true } : Row).values.get? 0 =
        some none ↔
      (((List.drop 1 [0, 4, 9]).get? ((0 + 2) / 8)).getD 0) &&&
        (1 <<< ((0 + 2) % 8)) ≠ 0)) :=
  ⟨rfl, by decide,
    decode_null_bitmap_spec [0, 4, 9] [TypeId.TINY_INT]
      { buffer := [9], values := [none], binary := true } 0 rfl (by decide)⟩

/-- C8: every successful `Row::decode`, in either mode, produces exactly
one values entry per supplied column, and `Row::len` returns that
count. -/
theorem decode_values_length (buf : List Nat) (columns : List TypeId) (binary : Bool)
    (row : Row) (h : Row.decode buf columns binary = .ok row) :
    row.values.length = columns.length ∧ row.len = columns.length := by
  have hs : row.values.length = columns.length := by
    cases binary with
    | false =>
      simp only [Row.decode, Bool.not_false, if_true] at h
      split at h
      · exact absurd h (by simp)
      · rename_i values hloop
        simp only [Except.ok.injEq] at h
        subst h
        have := decodeTextLoop_length columns.length buf 0 [] values hloop
        simpa using this
    | true =>
      cases buf with
      | nil => simp [Row.decode] at h
      | cons header rest =>
        simp only [Row.decode, Bool.not_true, Bool.false_eq_true, if_false] at h
        split at h
        · exact absurd h (by simp)
        · split at h
          · split at h
            · exact absurd h (by simp)
            · rename_i values hloop
              simp only [Except.ok.injEq] at h
              subst h
              obtain ⟨tail, hout, hlen, _⟩ :=
                decodeBinLoop_spec _ _ columns 0 0 [] values hloop
              simp only [List.reverse_nil, List.nil_append] at hout
              simp [hout, hlen]
          · exact absurd h (by simp)
  exact ⟨hs, hs⟩

/-- Witness for C8: decoding the binary row `[0x00, 0x00, 0x07]` with
one TINY_INT column yields one values entry and `Row::len = 1`. -/
theorem decode_values_length_witness :
    Row.decode [0, 0, 7] [TypeId.TINY_INT] true =
      .ok { buffer := [7], values := [some (0, 1)], binary := true } ∧
    (({ buffer := [7], values := [some (0, 1)], binary := true } : Row).values.length = 1 ∧
     Row.len { buffer := [7], values := [some (0, 1)], binary := true } = 1) :=
  ⟨rfl,
    decode_values_length [0, 0, 7] [TypeId.TINY_INT] true
      { buffer := [7], values := [some (0, 1)], binary := true } rfl⟩
